import Mathlib

/-!
Shallow embedding of the llamavault encrypted credential vault
(`src/llamavault/vault.py`, `src/llamavault/credential.py`,
`src/llamavault/exceptions.py`) and proofs about its specification.

Modelling conventions:
* Wall-clock instants (`datetime.now()`) are natural numbers (`Timestamp`);
  each operation receives the instant(s) at which its clock reads happen.
* ISO-8601 timestamp fields inside a serialized record are modelled by
  `TsField`: `null` (JSON null / missing key), `empty` (the empty string,
  which Python's `if not dt_str` treats like `None`), `iso t` (a well-formed
  ISO string, which `datetime.fromisoformat` parses back losslessly), and
  `corrupt` (a non-empty unparseable string).
* PBKDF2 key derivation is deterministic in (password, salt); it is modelled
  as the pair itself, which keeps exactly the property the code relies on:
  two derivations agree iff password and salt agree.
* Fernet is idealized authenticated encryption: a token remembers the key it
  was produced with and decryption succeeds exactly when the same key is
  presented, failing (InvalidToken) otherwise.
* Python dicts are association lists with Python's update semantics:
  assignment to an existing key replaces the value in place, assignment to a
  fresh key appends; iteration follows insertion order.
* The on-disk vault directory is a `Disk` record: the optional encrypted
  store file `vault.enc` and the optional plaintext `config.json`.
-/

/-- Wall-clock instants, `datetime.now()` readings. -/
abbrev Timestamp := Nat

/-- Salts, 16 random bytes in the source, abstracted to a value type. -/
abbrev Salt := Nat

/-- A serialized timestamp field of a credential record. -/
inductive TsField where
  | null : TsField
  | empty : TsField
  | iso : Timestamp → TsField
  | corrupt : TsField
deriving DecidableEq, Repr

/-- The in-memory credential object (`Credential.__init__`). -/
structure Credential where
  name : String
  value : String
  created_at : Timestamp
  updated_at : Timestamp
  last_accessed : Option Timestamp
  metadata : List (String × String)
deriving DecidableEq, Repr

/-- A serialized credential record as written into the JSON store
(`Credential.to_dict` output / `Credential.from_dict` input). -/
structure CredentialRecord where
  name : String
  value : String
  created_at : TsField
  updated_at : TsField
  last_accessed : TsField
  metadata : List (String × String)
deriving DecidableEq, Repr

/-- Python dict lookup `d[k]` / `d.get(k)` on an insertion-ordered dict. -/
def dictGet {α : Type} : List (String × α) → String → Option α
  | [], _ => none
  | (k', v) :: rest, k => if k' = k then some v else dictGet rest k

/-- Python dict assignment `d[k] = v`: replace in place if the key exists,
append otherwise. -/
def dictInsert {α : Type} : List (String × α) → String → α → List (String × α)
  | [], k, v => [(k, v)]
  | (k', v') :: rest, k, v =>
      if k' = k then (k, v) :: rest else (k', v') :: dictInsert rest k v

/-- Python dict deletion `del d[k]`. -/
def dictRemove {α : Type} : List (String × α) → String → List (String × α)
  | [], _ => []
  | (k', v') :: rest, k => if k' = k then rest else (k', v') :: dictRemove rest k

/-- Python `d.update(patch)`: assign every entry of `patch` into `d` in order. -/
def dictMerge {α : Type} (d patch : List (String × α)) : List (String × α) :=
  patch.foldl (fun acc p => dictInsert acc p.1 p.2) d

/-- The function `parse_datetime` of `credential.py`: `None` or the empty
string yield `None`; a well-formed ISO string parses losslessly; any other
string falls back to `datetime.now()`. -/
def parse_datetime (now : Timestamp) : TsField → Option Timestamp
  | .null => none
  | .empty => none
  | .iso t => some t
  | .corrupt => some now

/-- `Credential.to_dict`: serialize for storage. `created_at` and
`updated_at` are always present (the constructor requires them);
`last_accessed` serializes to null when it is `None`. -/
def Credential.to_dict (c : Credential) : CredentialRecord :=
  { name := c.name
    value := c.value
    created_at := .iso c.created_at
    updated_at := .iso c.updated_at
    last_accessed :=
      match c.last_accessed with
      | none => .null
      | some t => .iso t
    metadata := c.metadata }

/-- `Credential.from_dict`: parse a serialized record; a missing or
unparseable `created_at`/`updated_at` defaults to now (`parsed or
datetime.now()`), while `last_accessed` is passed through as parsed. -/
def Credential.from_dict (now : Timestamp) (data : CredentialRecord) : Credential :=
  { name := data.name
    value := data.value
    created_at := (parse_datetime now data.created_at).getD now
    updated_at := (parse_datetime now data.updated_at).getD now
    last_accessed := parse_datetime now data.last_accessed
    metadata := data.metadata }

/-- `Credential.update_value`: set the value and bump `updated_at`. -/
def Credential.update_value (c : Credential) (value : String) (now : Timestamp) :
    Credential :=
  { c with value := value, updated_at := now }

/-- `Credential.update_metadata`: merge the patch into the metadata dict and
bump `updated_at`. -/
def Credential.update_metadata (c : Credential) (patch : List (String × String))
    (now : Timestamp) : Credential :=
  { c with metadata := dictMerge c.metadata patch, updated_at := now }

/-- A derived symmetric key. PBKDF2-HMAC-SHA256 is deterministic and
collision-free in (password, salt) at this abstraction level. -/
structure Key where
  password : String
  salt : Salt
deriving DecidableEq, Repr

/-- `Vault._derive_key` with an explicit salt (the only way the source calls
it outside of fresh-salt generation). -/
def derive_key (password : String) (salt : Salt) : Key :=
  { password := password, salt := salt }

/-- The decrypted JSON content of `vault.enc`: the serialized credential
dict, name to record, in insertion order. -/
abbrev VaultData := List (String × CredentialRecord)

/-- A Fernet ciphertext blob: self-contained, bound to the key that
produced it. -/
structure Token where
  key : Key
  data : VaultData
deriving DecidableEq, Repr

/-- Fernet encryption of the serialized store. -/
def fernetEncrypt (k : Key) (data : VaultData) : Token :=
  { key := k, data := data }

/-- Fernet decryption: returns the plaintext exactly when the presented key
is the one the token was encrypted under, and fails (InvalidToken)
otherwise — authenticated encryption never returns garbage. -/
def fernetDecrypt (k : Key) (tok : Token) : Option VaultData :=
  if tok.key = k then some tok.data else none

/-- The error taxonomy of `exceptions.py` (the members the vault core
raises). -/
inductive VaultErr where
  | authenticationError : VaultErr
  | credentialNotFoundError : VaultErr
  | encryptionError : VaultErr
  | vaultError : VaultErr
deriving DecidableEq, Repr

/-- The persisted settings block of `config.json`. -/
structure Settings where
  log_access : Bool
  auto_backup : Bool
  backup_count : Int
deriving DecidableEq, Repr

/-- The vault configuration (`config.json`): salt, schema version,
settings. -/
structure Config where
  salt : Salt
  version : Nat
  settings : Settings
deriving DecidableEq, Repr

/-- The default configuration created by `_load_config` / `init` with a
freshly generated salt. -/
def defaultConfig (freshSalt : Salt) : Config :=
  { salt := freshSalt
    version := 1
    settings := { log_access := true, auto_backup := true, backup_count := 5 } }

/-- The on-disk state of a vault directory: the encrypted store file
`vault.enc` and the plaintext `config.json`, either possibly absent. -/
structure Disk where
  vault_file : Option Token
  config_file : Option Config
deriving DecidableEq, Repr

/-- An empty vault directory. -/
def Disk.empty : Disk :=
  { vault_file := none, config_file := none }

/-- The in-memory vault handle. -/
structure Vault where
  password : String
  credentials : List (String × Credential)
  config : Config
  auto_save : Bool
deriving DecidableEq, Repr

/-- `Vault._save_vault`: serialize the credential dict, encrypt it under the
key derived from the current password and the config salt, and atomically
replace the store file. -/
def Vault.save_vault (v : Vault) (d : Disk) : Disk :=
  let data : VaultData := v.credentials.map fun p => (p.1, p.2.to_dict)
  let key := derive_key v.password v.config.salt
  { d with vault_file := some (fernetEncrypt key data) }

/-- `Vault._save_config`: write the plaintext config file. -/
def Vault.save_config (v : Vault) (d : Disk) : Disk :=
  { d with config_file := some v.config }

/-- `Vault._load_vault`: decrypt the store file with the key derived from
the password and the config salt, then parse every record; a wrong key
fails with `EncryptionError`, the authenticated cipher never yields
plaintext under it. -/
def Vault.load_vault (password : String) (config : Config) (tok : Token)
    (now : Timestamp) : Except VaultErr (List (String × Credential)) :=
  match fernetDecrypt (derive_key password config.salt) tok with
  | none => .error .encryptionError
  | some data => .ok (data.map fun p => (p.1, Credential.from_dict now p.2))

/-- `Vault._load_config`: the config file when present, otherwise the
default configuration with a freshly generated salt. -/
def loadedConfig (d : Disk) (freshSalt : Salt) : Config :=
  match d.config_file with
  | some c => c
  | none => defaultConfig freshSalt

/-- `Vault.__init__` against a directory: load the config (or build the
default with a fresh salt), then, when a store file exists, decrypt it —
any failure there is surfaced as `AuthenticationError` ("Failed to decrypt
vault"). -/
def Vault.openVault (password : String) (auto_save : Bool) (d : Disk)
    (now : Timestamp) (freshSalt : Salt) : Except VaultErr Vault :=
  match d.vault_file with
  | none =>
      .ok { password := password, credentials := [],
            config := loadedConfig d freshSalt, auto_save := auto_save }
  | some tok =>
      match Vault.load_vault password (loadedConfig d freshSalt) tok now with
      | .error _ => .error .authenticationError
      | .ok creds =>
          .ok { password := password, credentials := creds,
                config := loadedConfig d freshSalt, auto_save := auto_save }

/-- `Vault.add_credential`: build a fresh credential with both timestamps
set to now and assign it into the dict — there is no duplicate-name check,
an existing entry is overwritten — then save if auto-save. -/
def Vault.add_credential (v : Vault) (name value : String)
    (metadata : List (String × String)) (now : Timestamp) (d : Disk) :
    Vault × Disk :=
  let cred : Credential :=
    { name := name, value := value, created_at := now, updated_at := now,
      last_accessed := none, metadata := metadata }
  let v2 := { v with credentials := dictInsert v.credentials name cred }
  (v2, if v2.auto_save then v2.save_vault d else d)

/-- `Vault.get_credential`: fail with `CredentialNotFoundError` when absent;
otherwise, when access logging is on, stamp `last_accessed` (and save if
auto-save); return the credential value. -/
def Vault.get_credential (v : Vault) (name : String) (now : Timestamp)
    (d : Disk) : Except VaultErr (String × Vault × Disk) :=
  match dictGet v.credentials name with
  | none => .error .credentialNotFoundError
  | some cred =>
      if v.config.settings.log_access then
        let cred2 := { cred with last_accessed := some now }
        let v2 := { v with credentials := dictInsert v.credentials name cred2 }
        .ok (cred2.value, v2, if v2.auto_save then v2.save_vault d else d)
      else
        .ok (cred.value, v, d)

/-- `Vault.remove_credential`: fail with `CredentialNotFoundError` when
absent; otherwise delete the entry and save if auto-save. -/
def Vault.remove_credential (v : Vault) (name : String) (d : Disk) :
    Except VaultErr (Vault × Disk) :=
  match dictGet v.credentials name with
  | none => .error .credentialNotFoundError
  | some _ =>
      let v2 := { v with credentials := dictRemove v.credentials name }
      .ok (v2, if v2.auto_save then v2.save_vault d else d)

/-- `Vault.set_metadata`: fail with `CredentialNotFoundError` when absent;
otherwise replace the metadata (a copy of the argument), bump `updated_at`,
and save if auto-save. -/
def Vault.set_metadata (v : Vault) (name : String)
    (metadata : List (String × String)) (now : Timestamp) (d : Disk) :
    Except VaultErr (Vault × Disk) :=
  match dictGet v.credentials name with
  | none => .error .credentialNotFoundError
  | some cred =>
      let cred2 := { cred with metadata := metadata, updated_at := now }
      let v2 := { v with credentials := dictInsert v.credentials name cred2 }
      .ok (v2, if v2.auto_save then v2.save_vault d else d)

/-- `Vault.save`: explicitly persist store and config. -/
def Vault.save (v : Vault) (d : Disk) : Disk :=
  v.save_config (v.save_vault d)

/-- Python `str.upper()`: uppercase every character. -/
def pyUpper (s : String) : String :=
  ⟨s.data.map Char.toUpper⟩

/-- Python `str.replace("-", "_")`: the pattern is a single character, so
the replacement is the character-wise map. -/
def replaceHyphens (s : String) : String :=
  ⟨s.data.map fun c => if c = '-' then '_' else c⟩

/-- `Vault.export_env`: iterate the credential dict in insertion order,
uppercase the name when asked, convert hyphens (only hyphens) to
underscores, and assign into the result dict — later entries overwrite
colliding earlier ones. -/
def Vault.export_env (v : Vault) (uppercase : Bool) : List (String × String) :=
  v.credentials.foldl
    (fun env p =>
      let key0 := if uppercase then pyUpper p.1 else p.1
      let key := replaceHyphens key0
      dictInsert env key p.2.value)
    []

/-- `Vault.init`: build a fresh default config and an empty credential map,
then persist config and store. -/
def Vault.initVault (password : String) (freshSalt : Salt) (auto_save : Bool) :
    Vault × Disk :=
  let v : Vault :=
    { password := password, credentials := [], config := defaultConfig freshSalt,
      auto_save := auto_save }
  (v, v.save_vault (v.save_config Disk.empty))

/-- The while-loop of `Vault._cleanup_backups`: pop and delete the first
(oldest) element of the sorted listing until at most `max_backups` remain. -/
def prune_backups (max_backups : Int) : List Timestamp → List Timestamp
  | [] => []
  | t :: rest =>
      if (((t :: rest).length : Int)) > max_backups then prune_backups max_backups rest
      else t :: rest

/-- `Vault._cleanup_backups`: do nothing unless `auto_backup` is enabled and
`backup_count` is positive; otherwise sort the `vault_*.enc` filenames
(timestamp-named, so filename order is creation order) and delete oldest
first until `backup_count` remain. -/
def cleanup_backups (settings : Settings) (dir : List Timestamp) : List Timestamp :=
  if settings.auto_backup = false then dir
  else if settings.backup_count ≤ 0 then dir
  else prune_backups settings.backup_count (List.insertionSort (· ≤ ·) dir)

/-- `Vault.backup`: copy the encrypted store to `vault_<timestamp>.enc`
(overwriting a same-named file, hence set semantics on the listing), then
run the cleanup. The backup directory is modelled by the multiset-free list
of timestamp filenames it holds. -/
def Vault.backup (v : Vault) (dir : List Timestamp) (now : Timestamp) :
    List Timestamp :=
  let dir2 := if now ∈ dir then dir else dir ++ [now]
  cleanup_backups v.config.settings dir2

/-- A sequence of `backup()` calls at the given instants. -/
def Vault.backupRuns (v : Vault) (dir : List Timestamp)
    (times : List Timestamp) : List Timestamp :=
  times.foldl (fun acc t => v.backup acc t) dir

/-- `Vault.change_password` with fault injection on its two persistence
steps (`_save_vault`, `_save_config`), mirroring the source transcript:
set the new password, write the new salt into `self._config`, try to save
store then config; on an exception only the password is reverted — the new
salt stays in the in-memory config and whatever was already written stays
on disk — and `EncryptionError` is raised. -/
def Vault.change_password (v : Vault) (new_password : String) (new_salt : Salt)
    (save_vault_fails save_config_fails : Bool) (d : Disk) :
    Option VaultErr × Vault × Disk :=
  let old_password := v.password
  let v1 := { v with password := new_password,
                     config := { v.config with salt := new_salt } }
  if save_vault_fails then
    (some .encryptionError, { v1 with password := old_password }, d)
  else
    let d1 := v1.save_vault d
    if save_config_fails then
      (some .encryptionError, { v1 with password := old_password }, d1)
    else
      (none, v1, v1.save_config d1)

theorem dictGet_insert_self {α : Type} (l : List (String × α)) (k : String)
    (v : α) : dictGet (dictInsert l k v) k = some v := by
  induction l with
  | nil => simp [dictInsert, dictGet]
  | cons p rest ih =>
      obtain ⟨k', v'⟩ := p
      by_cases h : k' = k
      · simp [dictInsert, h, dictGet]
      · simp [dictInsert, h, dictGet, ih]

theorem dictGet_insert_ne {α : Type} (l : List (String × α)) (k k' : String)
    (v : α) (h : k' ≠ k) : dictGet (dictInsert l k v) k' = dictGet l k' := by
  have hk : ¬(k = k') := fun hh => h hh.symm
  induction l with
  | nil => simp [dictInsert, dictGet, hk]
  | cons p rest ih =>
      obtain ⟨k0, v0⟩ := p
      by_cases h0 : k0 = k
      · subst h0
        simp [dictInsert, dictGet, hk]
      · simp [dictInsert, h0, dictGet, ih]

theorem dictGet_remove_ne {α : Type} (l : List (String × α)) (k k' : String)
    (h : k' ≠ k) : dictGet (dictRemove l k) k' = dictGet l k' := by
  have hk : ¬(k = k') := fun hh => h hh.symm
  induction l with
  | nil => simp [dictRemove, dictGet]
  | cons p rest ih =>
      obtain ⟨k0, v0⟩ := p
      by_cases h0 : k0 = k
      · subst h0
        simp [dictRemove, dictGet, hk]
      · simp [dictRemove, h0, dictGet, ih]

theorem dictGet_map {α β : Type} (f : α → β) (l : List (String × α))
    (k : String) :
    dictGet (l.map fun p => (p.1, f p.2)) k = (dictGet l k).map f := by
  induction l with
  | nil => simp [dictGet]
  | cons p rest ih =>
      obtain ⟨k0, v0⟩ := p
      by_cases h : k0 = k
      · simp [dictGet, h]
      · simp [dictGet, h, ih]

theorem dictGet_mem {α : Type} {l : List (String × α)} {k : String} {v : α}
    (h : dictGet l k = some v) : (k, v) ∈ l := by
  induction l with
  | nil => simp [dictGet] at h
  | cons p rest ih =>
      obtain ⟨k0, v0⟩ := p
      by_cases h0 : k0 = k
      · subst h0
        simp [dictGet] at h
        simp [h]
      · simp [dictGet, h0] at h
        exact List.mem_cons_of_mem _ (ih h)

theorem from_dict_to_dict (now : Timestamp) (c : Credential) :
    Credential.from_dict now c.to_dict = c := by
  obtain ⟨n, v, ca, ua, la, m⟩ := c
  cases la <;> rfl

/-- A serialization round trip of a whole credential map is the identity. -/
theorem serialize_roundtrip (now : Timestamp) (l : List (String × Credential)) :
    (l.map fun p => (p.1, p.2.to_dict)).map
        (fun p => (p.1, Credential.from_dict now p.2)) = l := by
  induction l with
  | nil => rfl
  | cons p rest ih => simp [from_dict_to_dict, ih]

/-- A sample configuration with the default settings and salt 1. -/
def testConfig : Config :=
  { salt := 1, version := 1,
    settings := { log_access := true, auto_backup := true, backup_count := 5 } }

/-- A sample pre-existing credential record. -/
def oldCred : Credential :=
  { name := "api-key", value := "x", created_at := 1, updated_at := 1,
    last_accessed := none, metadata := [("env", "prod")] }

/-- A vault already holding `oldCred` under the name "api-key". -/
def vaultA : Vault :=
  { password := "pw", credentials := [("api-key", oldCred)],
    config := testConfig, auto_save := false }

/-- C1 counterexample: on a vault already holding "api-key", calling
`add_credential "api-key"` does not fail with DuplicateName — there is no
duplicate check at all — and the pre-existing record is replaced by a fresh
credential, so it is modified, contradicting the claim. -/
theorem addCredential_overwrites_existing :
    dictGet (vaultA.add_credential "api-key" "y" [] 5 Disk.empty).1.credentials
        "api-key" ≠ some oldCred ∧
    dictGet (vaultA.add_credential "api-key" "y" [] 5 Disk.empty).1.credentials
        "api-key" =
      some { name := "api-key", value := "y", created_at := 5, updated_at := 5,
             last_accessed := none, metadata := [] } := by
  constructor
  · decide
  · decide

/-- C1 amended: `add_credential` is an unconditional upsert — for every
vault and every name, present or not, the call succeeds and afterwards the
map holds a fresh credential with the given value and metadata and both
timestamps set to now; an existing record under that name is overwritten
(last write wins). -/
theorem addCredential_upserts (v : Vault) (name value : String)
    (metadata : List (String × String)) (now : Timestamp) (d : Disk) :
    dictGet (v.add_credential name value metadata now d).1.credentials name =
      some { name := name, value := value, created_at := now, updated_at := now,
             last_accessed := none, metadata := metadata } := by
  simp [Vault.add_credential, dictGet_insert_self]

/-- A second sample credential, named with a space. -/
def spaceCred : Credential :=
  { name := "db url", value := "y", created_at := 2, updated_at := 2,
    last_accessed := none, metadata := [] }

/-- A vault holding exactly the credential set of the export-determinism
scenario. -/
def vaultExport : Vault :=
  { password := "pw",
    credentials := [("api-key", { oldCred with metadata := [] }),
                    ("db url", spaceCred)],
    config := testConfig, auto_save := false }

/-- C3 counterexample: `export_env` only replaces hyphens, never spaces, so
on the credential set of the claim the key "DB_URL" is absent and the space
survives in "DB URL" — the claimed output map is not produced. -/
theorem exportEnv_space_not_replaced :
    dictGet (vaultExport.export_env true) "DB_URL" = none ∧
    dictGet (vaultExport.export_env true) "DB URL" = some "y" := by
  constructor
  · decide
  · decide

/-- C3 amended: `export_env` is a pure transform replacing each hyphen of a
credential name by an underscore — spaces are left as they are — and
uppercasing when the flag is set; on the credential set of the claim it
yields exactly the pairs ("API_KEY", "x") and ("DB URL", "y"), and without
uppercasing the pairs ("api_key", "x") and ("db url", "y"). -/
theorem exportEnv_hyphens_only :
    vaultExport.export_env true = [("API_KEY", "x"), ("DB URL", "y")] ∧
    vaultExport.export_env false = [("api_key", "x"), ("db url", "y")] := by
  constructor
  · decide
  · decide

/-- A serialized record whose `created_at` is missing while `updated_at` is
a well-formed old timestamp. -/
def recMissingCreated : CredentialRecord :=
  { name := "a", value := "v", created_at := .null, updated_at := .iso 5,
    last_accessed := .null, metadata := [] }

/-- C6 counterexample: loading a record whose `created_at` is missing while
`updated_at` parses to an older instant makes `from_dict` default
`created_at` to now, producing a live credential with
`created_at > updated_at` — loading via `from_dict` does not preserve the
invariant. -/
theorem fromDict_breaks_timestamp_invariant :
    ¬ ((Credential.from_dict 100 recMissingCreated).created_at ≤
        (Credential.from_dict 100 recMissingCreated).updated_at) := by
  decide

/-- C6 amended: `created_at ≤ updated_at` is established by
`add_credential` (both fields are set to the same now) and preserved, under
a monotone clock (now is not before the record's creation), by
`update_value`, `update_metadata` and `set_metadata`; `from_dict` preserves
it only for records whose `created_at` and `updated_at` are both present,
well-formed and ordered — a record with a missing or corrupt timestamp can
come back with `created_at > updated_at`. -/
theorem timestamp_invariant (v : Vault) (name value : String)
    (meta : List (String × String)) (now : Timestamp) (d : Disk)
    (c : Credential) (r : CredentialRecord) (t1 t2 : Timestamp) :
    (∀ c2, dictGet (v.add_credential name value meta now d).1.credentials name
        = some c2 → c2.created_at ≤ c2.updated_at) ∧
    (c.created_at ≤ now →
      (c.update_value value now).created_at ≤
        (c.update_value value now).updated_at) ∧
    (c.created_at ≤ now →
      (c.update_metadata meta now).created_at ≤
        (c.update_metadata meta now).updated_at) ∧
    (∀ v2 d2, v.set_metadata name meta now d = .ok (v2, d2) →
      (∀ p ∈ v.credentials, p.2.created_at ≤ now) →
      ∀ c2, dictGet v2.credentials name = some c2 →
        c2.created_at ≤ c2.updated_at) ∧
    (r.created_at = .iso t1 → r.updated_at = .iso t2 → t1 ≤ t2 →
      (Credential.from_dict now r).created_at ≤
        (Credential.from_dict now r).updated_at) := by
  refine ⟨?_, ?_, ?_, ?_, ?_⟩
  · intro c2 h
    simp [Vault.add_credential, dictGet_insert_self] at h
    simp [← h]
  · intro h
    simpa [Credential.update_value] using h
  · intro h
    simpa [Credential.update_metadata] using h
  · intro v2 d2 hok hmono c2 hget
    unfold Vault.set_metadata at hok
    cases hfind : dictGet v.credentials name with
    | none => rw [hfind] at hok; exact absurd hok (by simp)
    | some cred =>
        rw [hfind] at hok
        simp only [Except.ok.injEq, Prod.mk.injEq] at hok
        obtain ⟨hv2, _⟩ := hok
        rw [← hv2] at hget
        simp only [dictGet_insert_self, Option.some.injEq] at hget
        have hmem : (name, cred) ∈ v.credentials := dictGet_mem hfind
        have := hmono _ hmem
        simp [← hget]
        exact this
  · intro h1 h2 h12
    simp [Credential.from_dict, parse_datetime, h1, h2]
    exact h12

/-- A well-formed serialized record with ordered timestamps. -/
def recOrdered : CredentialRecord :=
  { name := "a", value := "v", created_at := .iso 3, updated_at := .iso 7,
    last_accessed := .null, metadata := [] }

/-- Witness for the amended C6 theorem at concrete inputs. -/
theorem timestamp_invariant_witness :
    ((oldCred.update_value "w" 9).created_at ≤
        (oldCred.update_value "w" 9).updated_at) ∧
    ((Credential.from_dict 9 recOrdered).created_at ≤
        (Credential.from_dict 9 recOrdered).updated_at) := by
  constructor
  · exact (timestamp_invariant vaultA "a" "w" [] 9 Disk.empty oldCred
      recOrdered 3 7).2.1 (by decide)
  · exact (timestamp_invariant vaultA "a" "w" [] 9 Disk.empty oldCred
      recOrdered 3 7).2.2.2.2 rfl rfl (by decide)

/-- A serialized record with every timestamp field missing except a corrupt
`updated_at`. -/
def recDegraded : CredentialRecord :=
  { name := "a", value := "v", created_at := .null, updated_at := .corrupt,
    last_accessed := .null, metadata := [] }

/-- C7 counterexample: on a record whose timestamp fields are missing or
corrupt, `from_dict` does not default every such field to now — a missing
`last_accessed` is passed through as None, not as the current time (and the
source logs nothing in `parse_datetime`). -/
theorem missing_lastAccessed_stays_none :
    (Credential.from_dict 100 recDegraded).last_accessed = none ∧
    (Credential.from_dict 100 recDegraded).last_accessed ≠ some 100 := by
  constructor
  · decide
  · decide

/-- C7 amended: parsing a record never fails the vault load; a missing,
empty or corrupt `created_at` or `updated_at` defaults to now, and a
corrupt `last_accessed` defaults to now, but a missing or empty
`last_accessed` remains unset (None); no warning is emitted by the code. -/
theorem fromDict_timestamp_defaults (now : Timestamp) (r : CredentialRecord) :
    ((r.created_at = .null ∨ r.created_at = .empty ∨ r.created_at = .corrupt) →
      (Credential.from_dict now r).created_at = now) ∧
    ((r.updated_at = .null ∨ r.updated_at = .empty ∨ r.updated_at = .corrupt) →
      (Credential.from_dict now r).updated_at = now) ∧
    (r.last_accessed = .corrupt →
      (Credential.from_dict now r).last_accessed = some now) ∧
    ((r.last_accessed = .null ∨ r.last_accessed = .empty) →
      (Credential.from_dict now r).last_accessed = none) := by
  refine ⟨?_, ?_, ?_, ?_⟩
  · rintro (h | h | h) <;> simp [Credential.from_dict, parse_datetime, h]
  · rintro (h | h | h) <;> simp [Credential.from_dict, parse_datetime, h]
  · intro h
    simp [Credential.from_dict, parse_datetime, h]
  · rintro (h | h) <;> simp [Credential.from_dict, parse_datetime, h]

/-- Witness for the amended C7 theorem at concrete inputs. -/
theorem fromDict_timestamp_defaults_witness :
    (Credential.from_dict 100 recDegraded).created_at = 100 ∧
    (Credential.from_dict 100 recDegraded).updated_at = 100 := by
  constructor
  · exact (fromDict_timestamp_defaults 100 recDegraded).1 (Or.inl rfl)
  · exact (fromDict_timestamp_defaults 100 recDegraded).2.1
      (Or.inr (Or.inr rfl))

/-- C4: opening an existing vault store with any password different from
the one it was encrypted under fails with AuthenticationError — the
authenticated cipher rejects the mismatched key, `_load_vault` turns that
into a typed error and `__init__` surfaces it as AuthenticationError; no
partially-decrypted or default credential data is returned. -/
theorem wrong_password_fails_authentication (store_pw open_pw : String)
    (cfg : Config) (data : VaultData) (auto : Bool) (now : Timestamp)
    (freshSalt : Salt) (hpw : open_pw ≠ store_pw) :
    Vault.openVault open_pw auto
      { vault_file := some (fernetEncrypt (derive_key store_pw cfg.salt) data),
        config_file := some cfg } now freshSalt =
      .error .authenticationError := by
  have h2 : ¬(store_pw = open_pw) := fun hh => hpw hh.symm
  simp [Vault.openVault, loadedConfig, Vault.load_vault, fernetDecrypt,
        fernetEncrypt, derive_key, Key.mk.injEq, h2]

/-- Witness for C4 at concrete inputs: a store encrypted under "right" does
not open with "wrong". -/
theorem wrong_password_fails_authentication_witness :
    Vault.openVault "wrong" true
      { vault_file := some (fernetEncrypt (derive_key "right" testConfig.salt)
          [("api-key", oldCred.to_dict)]),
        config_file := some testConfig } 7 0 =
      .error .authenticationError :=
  wrong_password_fails_authentication "right" "wrong" testConfig
    [("api-key", oldCred.to_dict)] true 7 0 (by decide)

/-- A consistent open vault for the password-change scenario: password
"old", salt 1, one credential, auto-save on, disk and memory in sync. -/
def vaultB : Vault :=
  { password := "old", credentials := [("api-key", oldCred)],
    config := testConfig, auto_save := true }

/-- The on-disk state matching `vaultB`. -/
def diskB : Disk := vaultB.save Disk.empty

/-- C2 (exhibiting the code bug): when `change_password` fails between its
two persistence steps — the store was re-encrypted and written under the
new password and the new salt, then writing the config failed — the
exception path reverts only `self._password`: the raised error is
EncryptionError, the in-memory config keeps the new salt (2, not the old
1), and the on-disk state is a partial commit in which the store is
encrypted under the new key while the config still holds the old salt, so
reopening with the old password fails instead of leaving the old
password in effect as the specification requires. -/
theorem change_password_partial_commit_locks_out_old_password :
    (vaultB.change_password "new" 2 false true diskB).1 =
        some .encryptionError ∧
    (vaultB.change_password "new" 2 false true diskB).2.1.password = "old" ∧
    (vaultB.change_password "new" 2 false true diskB).2.1.config.salt = 2 ∧
    Vault.openVault "old" true
        (vaultB.change_password "new" 2 false true diskB).2.2 7 0 =
      .error .authenticationError := by
  refine ⟨rfl, rfl, rfl, ?_⟩
  rfl

/-- When the name is present, `get_credential` succeeds and returns exactly
the stored credential value, whether or not access logging rewrites
`last_accessed`. -/
theorem get_credential_value (w : Vault) (e : Disk) (name : String)
    (t : Timestamp) (c : Credential)
    (hc : dictGet w.credentials name = some c) :
    ∃ res, w.get_credential name t e = .ok res ∧ res.1 = c.value := by
  unfold Vault.get_credential
  rw [hc]
  by_cases hl : w.config.settings.log_access
  · simp [hl]
  · simp [hl]

/-- Opening a directory right after `_save_vault` with the same password
recovers exactly the in-memory credential map (decryption succeeds and the
serialization round-trips). -/
theorem openVault_after_save (w : Vault) (e : Disk) (auto2 : Bool)
    (t : Timestamp) (fs : Salt) (hcfg : e.config_file = some w.config) :
    Vault.openVault w.password auto2 (w.save_vault e) t fs =
      .ok { password := w.password, credentials := w.credentials,
            config := w.config, auto_save := auto2 } := by
  simp only [Vault.openVault, loadedConfig, Vault.save_vault, hcfg,
    Vault.load_vault, fernetDecrypt, fernetEncrypt, if_true]
  have hrt := serialize_roundtrip t w.credentials
  rw [List.map_map] at hrt
  simp [hrt]

/-- The credential object freshly built by `add_credential`: the given name,
value and metadata, both timestamps set to now, never accessed. -/
def freshCred (name value : String) (meta : List (String × String))
    (now : Timestamp) : Credential :=
  { name := name, value := value, created_at := now, updated_at := now,
    last_accessed := none, metadata := meta }

/-- C5: for every open vault with auto-save, after
`add_credential name value meta`, `get_credential name` returns exactly the
added value and the stored metadata equals the given metadata — both
immediately and after reopening the saved directory with the correct
password (the credential round-trips losslessly through
serialize-encrypt-save and load-decrypt-parse). -/
theorem credential_round_trip (v : Vault) (d : Disk) (name value : String)
    (meta : List (String × String)) (now now2 now3 now4 : Timestamp)
    (auto2 : Bool) (freshSalt : Salt)
    (hsave : v.auto_save = true) (hcfg : d.config_file = some v.config) :
    (∃ res, (v.add_credential name value meta now d).1.get_credential name
        now2 (v.add_credential name value meta now d).2 = .ok res ∧
      res.1 = value) ∧
    ((dictGet (v.add_credential name value meta now d).1.credentials name).map
        Credential.metadata = some meta) ∧
    (∃ v2, Vault.openVault v.password auto2
        (v.add_credential name value meta now d).2 now3 freshSalt = .ok v2 ∧
      (∃ res, v2.get_credential name now4
          (v.add_credential name value meta now d).2 = .ok res ∧
        res.1 = value) ∧
      (dictGet v2.credentials name).map Credential.metadata = some meta) := by
  have hcreds : (v.add_credential name value meta now d).1.credentials =
      dictInsert v.credentials name (freshCred name value meta now) := rfl
  have hlook : dictGet (v.add_credential name value meta now d).1.credentials
      name = some (freshCred name value meta now) := by
    rw [hcreds]
    exact dictGet_insert_self _ _ _
  have hA2 : (v.add_credential name value meta now d).2 =
      (v.add_credential name value meta now d).1.save_vault d := by
    simp [Vault.add_credential, hsave]
  refine ⟨?_, ?_, ?_⟩
  · obtain ⟨res, hres, hval⟩ := get_credential_value
      (v.add_credential name value meta now d).1
      (v.add_credential name value meta now d).2 name now2 _ hlook
    exact ⟨res, hres, hval⟩
  · rw [hlook]
    rfl
  · have hopen := openVault_after_save (v.add_credential name value meta now d).1
      d auto2 now3 freshSalt hcfg
    rw [← hA2] at hopen
    refine ⟨_, hopen, ?_, ?_⟩
    · obtain ⟨res, hres, hval⟩ := get_credential_value
        { password := (v.add_credential name value meta now d).1.password,
          credentials := (v.add_credential name value meta now d).1.credentials,
          config := (v.add_credential name value meta now d).1.config,
          auto_save := auto2 }
        (v.add_credential name value meta now d).2 name now4 _ hlook
      exact ⟨res, hres, hval⟩
    · rw [hlook]
      rfl

/-- A freshly initialized vault and its directory. -/
def vaultInit0 : Vault × Disk := Vault.initVault "hunter2" 0 true

/-- Witness for C5 at concrete inputs: on a fresh vault, the value added
under "k" reads back immediately. -/
theorem credential_round_trip_witness :
    ∃ res, (vaultInit0.1.add_credential "k" "v1" [] 1 vaultInit0.2).1.get_credential
        "k" 2 (vaultInit0.1.add_credential "k" "v1" [] 1 vaultInit0.2).2 =
      .ok res ∧ res.1 = "v1" :=
  (credential_round_trip vaultInit0.1 vaultInit0.2 "k" "v1" [] 1 2 3 4 true 0
    rfl rfl).1

/-- The cleanup loop leaves a listing of at most `m` files untouched. -/
theorem prune_backups_of_length_le (m : Int) (l : List Timestamp)
    (h : (l.length : Int) ≤ m) : prune_backups m l = l := by
  cases l with
  | nil => rfl
  | cons t rest =>
      rw [prune_backups]
      rw [if_neg (not_lt.mpr h)]

/-- The cleanup loop deletes the head (oldest) file while the listing is
too long. -/
theorem prune_backups_cons_of_gt (m : Int) (t : Timestamp)
    (rest : List Timestamp) (h : m < (((t :: rest).length : Nat) : Int)) :
    prune_backups m (t :: rest) = prune_backups m rest := by
  rw [prune_backups]
  rw [if_pos h]

/-- One `backup()` call on a vault with `auto_backup` on and
`backup_count = 3`, at an instant not yet in the directory and later than
everything in it, appends the new file and prunes oldest-first. -/
theorem backup_step (v : Vault) (dir : List Timestamp) (t : Timestamp)
    (hb : v.config.settings.auto_backup = true)
    (hc : v.config.settings.backup_count = 3)
    (hmem : t ∉ dir) (hsorted : List.Sorted (· ≤ ·) (dir ++ [t])) :
    v.backup dir t = prune_backups 3 (dir ++ [t]) := by
  have h30 : ¬((3 : Int) ≤ 0) := by decide
  simp only [Vault.backup, cleanup_backups, hb, hc]
  rw [if_neg hmem]
  simp only [Bool.true_eq_false, if_false, if_neg h30]
  exact congrArg _ (List.Sorted.insertionSort_eq hsorted)

/-- C8: with `auto_backup` enabled and `backup_count = 3`, five `backup()`
calls at strictly increasing instants leave exactly the three most recent
backup files, in creation order, the two oldest having been deleted
first. -/
theorem backup_pruning (v : Vault) (t1 t2 t3 t4 t5 : Timestamp)
    (hb : v.config.settings.auto_backup = true)
    (hc : v.config.settings.backup_count = 3)
    (h12 : t1 < t2) (h23 : t2 < t3) (h34 : t3 < t4) (h45 : t4 < t5) :
    v.backupRuns [] [t1, t2, t3, t4, t5] = [t3, t4, t5] := by
  have l12 : t1 ≤ t2 := le_of_lt h12
  have l13 : t1 ≤ t3 := le_of_lt (h12.trans h23)
  have l14 : t1 ≤ t4 := le_of_lt ((h12.trans h23).trans h34)
  have l23 : t2 ≤ t3 := le_of_lt h23
  have l24 : t2 ≤ t4 := le_of_lt (h23.trans h34)
  have l25 : t2 ≤ t5 := le_of_lt ((h23.trans h34).trans h45)
  have l34 : t3 ≤ t4 := le_of_lt h34
  have l35 : t3 ≤ t5 := le_of_lt (h34.trans h45)
  have l45 : t4 ≤ t5 := le_of_lt h45
  have n21 : t2 ≠ t1 := ne_of_gt h12
  have n31 : t3 ≠ t1 := ne_of_gt (h12.trans h23)
  have n32 : t3 ≠ t2 := ne_of_gt h23
  have n41 : t4 ≠ t1 := ne_of_gt ((h12.trans h23).trans h34)
  have n42 : t4 ≠ t2 := ne_of_gt (h23.trans h34)
  have n43 : t4 ≠ t3 := ne_of_gt h34
  have n52 : t5 ≠ t2 := ne_of_gt ((h23.trans h34).trans h45)
  have n53 : t5 ≠ t3 := ne_of_gt (h34.trans h45)
  have n54 : t5 ≠ t4 := ne_of_gt h45
  have m1 : t1 ∉ ([] : List Timestamp) := by simp
  have o1 : List.Sorted (· ≤ ·) (([] : List Timestamp) ++ [t1]) := by simp
  have m2 : t2 ∉ [t1] := by simp [n21]
  have o2 : List.Sorted (· ≤ ·) ([t1] ++ [t2]) := by
    simp [List.sorted_cons, l12]
  have m3 : t3 ∉ [t1, t2] := by simp [n31, n32]
  have o3 : List.Sorted (· ≤ ·) ([t1, t2] ++ [t3]) := by
    simp [List.sorted_cons, l12, l13, l23]
  have m4 : t4 ∉ [t1, t2, t3] := by simp [n41, n42, n43]
  have o4 : List.Sorted (· ≤ ·) ([t1, t2, t3] ++ [t4]) := by
    simp [List.sorted_cons, l12, l13, l14, l23, l24, l34]
  have m5 : t5 ∉ [t2, t3, t4] := by simp [n52, n53, n54]
  have o5 : List.Sorted (· ≤ ·) ([t2, t3, t4] ++ [t5]) := by
    simp [List.sorted_cons, l23, l24, l25, l34, l35, l45]
  have s1 : v.backup [] t1 = [t1] := by
    rw [backup_step v [] t1 hb hc m1 o1]
    exact prune_backups_of_length_le 3 [t1] (by simp)
  have s2 : v.backup [t1] t2 = [t1, t2] := by
    rw [backup_step v [t1] t2 hb hc m2 o2]
    exact prune_backups_of_length_le 3 [t1, t2] (by simp)
  have s3 : v.backup [t1, t2] t3 = [t1, t2, t3] := by
    rw [backup_step v [t1, t2] t3 hb hc m3 o3]
    exact prune_backups_of_length_le 3 [t1, t2, t3] (by simp)
  have s4 : v.backup [t1, t2, t3] t4 = [t2, t3, t4] := by
    rw [backup_step v [t1, t2, t3] t4 hb hc m4 o4]
    rw [show [t1, t2, t3] ++ [t4] = t1 :: [t2, t3, t4] from rfl]
    rw [prune_backups_cons_of_gt 3 t1 [t2, t3, t4] (by simp)]
    exact prune_backups_of_length_le 3 [t2, t3, t4] (by simp)
  have s5 : v.backup [t2, t3, t4] t5 = [t3, t4, t5] := by
    rw [backup_step v [t2, t3, t4] t5 hb hc m5 o5]
    rw [show [t2, t3, t4] ++ [t5] = t2 :: [t3, t4, t5] from rfl]
    rw [prune_backups_cons_of_gt 3 t2 [t3, t4, t5] (by simp)]
    exact prune_backups_of_length_le 3 [t3, t4, t5] (by simp)
  simp only [Vault.backupRuns, List.foldl_cons, List.foldl_nil]
  rw [s1, s2, s3, s4, s5]

/-- A vault whose settings match the C8 scenario: auto-backup on,
`backup_count = 3`. -/
def vaultC8 : Vault :=
  { password := "pw", credentials := [],
    config := { salt := 1, version := 1,
                settings := { log_access := true, auto_backup := true,
                              backup_count := 3 } },
    auto_save := true }

/-- Witness for C8 at concrete instants 1..5. -/
theorem backup_pruning_witness :
    vaultC8.backupRuns [] [1, 2, 3, 4, 5] = [3, 4, 5] :=
  backup_pruning vaultC8 1 2 3 4 5 rfl rfl (by decide) (by decide)
    (by decide) (by decide)

/-- An entry of `dictInsert l k v` is the inserted pair or an entry of
`l`. -/
theorem mem_dictInsert {α : Type} {p : String × α} {l : List (String × α)}
    {k : String} {v : α} (hp : p ∈ dictInsert l k v) :
    p = (k, v) ∨ p ∈ l := by
  induction l with
  | nil =>
      rw [dictInsert] at hp
      exact Or.inl (List.mem_singleton.mp hp)
  | cons q rest ih =>
      obtain ⟨k0, v0⟩ := q
      by_cases h0 : k0 = k
      · rw [dictInsert, if_pos h0] at hp
        rcases List.mem_cons.mp hp with hp | hp
        · exact Or.inl hp
        · exact Or.inr (List.mem_cons_of_mem _ hp)
      · rw [dictInsert, if_neg h0] at hp
        rcases List.mem_cons.mp hp with hp | hp
        · exact Or.inr (hp ▸ List.mem_cons_self _ _)
        · rcases ih hp with h | h
          · exact Or.inl h
          · exact Or.inr (List.mem_cons_of_mem _ h)

/-- An entry of `dictRemove l k` is an entry of `l`. -/
theorem mem_dictRemove {α : Type} {p : String × α} {l : List (String × α)}
    {k : String} (hp : p ∈ dictRemove l k) : p ∈ l := by
  induction l with
  | nil =>
      rw [dictRemove] at hp
      cases hp
  | cons q rest ih =>
      obtain ⟨k0, v0⟩ := q
      by_cases h0 : k0 = k
      · rw [dictRemove, if_pos h0] at hp
        exact List.mem_cons_of_mem _ hp
      · rw [dictRemove, if_neg h0] at hp
        rcases List.mem_cons.mp hp with hp | hp
        · exact hp ▸ List.mem_cons_self _ _
        · exact List.mem_cons_of_mem _ (ih hp)

/-- Every key of the in-memory credential map names its credential. -/
def NameKeyInv (l : List (String × Credential)) : Prop :=
  ∀ p ∈ l, p.2.name = p.1

/-- Every key of the serialized store on disk names its record. -/
def DiskNameKeyInv (d : Disk) : Prop :=
  ∀ tok, d.vault_file = some tok → ∀ p ∈ tok.data, p.2.name = p.1

/-- The joint name-key invariant of a vault handle and its directory. -/
def StateInv (s : Vault × Disk) : Prop :=
  NameKeyInv s.1.credentials ∧ DiskNameKeyInv s.2

theorem nameKeyInv_insert {l : List (String × Credential)} {k : String}
    {c : Credential} (hl : NameKeyInv l) (hc : c.name = k) :
    NameKeyInv (dictInsert l k c) := by
  intro p hp
  rcases mem_dictInsert hp with h | h
  · rw [h]; exact hc
  · exact hl p h

theorem nameKeyInv_remove {l : List (String × Credential)} {k : String}
    (hl : NameKeyInv l) : NameKeyInv (dictRemove l k) :=
  fun p hp => hl p (mem_dictRemove hp)

/-- `_save_vault` writes a store whose keys name their records, provided the
in-memory map does. -/
theorem diskInv_save_vault (v : Vault) (d : Disk)
    (hv : NameKeyInv v.credentials) : DiskNameKeyInv (v.save_vault d) := by
  intro tok htok p hp
  simp only [Vault.save_vault, Option.some.injEq] at htok
  rw [← htok] at hp
  simp only [fernetEncrypt] at hp
  obtain ⟨q, hq, hpq⟩ := List.mem_map.mp hp
  rw [← hpq]
  exact hv q hq

/-- `_save_config` does not touch the store file. -/
theorem diskInv_save_config (v : Vault) (d : Disk)
    (hd : DiskNameKeyInv d) : DiskNameKeyInv (v.save_config d) := by
  intro tok htok
  exact hd tok htok

/-- `_load_vault` yields a credential map whose keys name their
credentials, provided the serialized store does. -/
theorem nameKeyInv_load (password : String) (config : Config) (tok : Token)
    (now : Timestamp) (creds : List (String × Credential))
    (hd : ∀ p ∈ tok.data, p.2.name = p.1)
    (h : Vault.load_vault password config tok now = .ok creds) :
    NameKeyInv creds := by
  unfold Vault.load_vault at h
  cases hdec : fernetDecrypt (derive_key password config.salt) tok with
  | none => rw [hdec] at h; cases h
  | some data =>
      rw [hdec] at h
      simp only [Except.ok.injEq] at h
      have hdata : data = tok.data := by
        unfold fernetDecrypt at hdec
        split at hdec
        · exact (Option.some.inj hdec).symm
        · cases hdec
      rw [← h]
      intro p hp
      obtain ⟨q, hq, hpq⟩ := List.mem_map.mp hp
      rw [← hpq]
      exact hd q (hdata ▸ hq)

/-- Opening a directory yields a credential map whose keys name their
credentials, provided the on-disk store does. -/
theorem nameKeyInv_open (password : String) (auto2 : Bool) (d : Disk)
    (now : Timestamp) (fs : Salt) (v2 : Vault) (hd : DiskNameKeyInv d)
    (h : Vault.openVault password auto2 d now fs = .ok v2) :
    NameKeyInv v2.credentials := by
  unfold Vault.openVault at h
  split at h
  · simp only [Except.ok.injEq] at h
    rw [← h]
    intro p hp
    cases hp
  · rename_i tok hvf
    split at h
    · cases h
    · rename_i creds hload
      simp only [Except.ok.injEq] at h
      rw [← h]
      exact nameKeyInv_load password (loadedConfig d fs) tok now creds
        (hd tok hvf) hload

/-- The public operations of the reachability claims, each with the data it
takes. -/
inductive VaultOp where
  | add : String → String → List (String × String) → VaultOp
  | setMeta : String → List (String × String) → VaultOp
  | remove : String → VaultOp
  | save : VaultOp
  | reopen : Bool → Salt → VaultOp
deriving Repr

/-- One public operation applied to a vault handle and its directory at a
given instant; an operation that raises a typed error leaves the state
unchanged. -/
def VaultOp.step (now : Timestamp) (op : VaultOp) (s : Vault × Disk) :
    Vault × Disk :=
  match op with
  | .add name value meta => s.1.add_credential name value meta now s.2
  | .setMeta name meta =>
      match s.1.set_metadata name meta now s.2 with
      | .ok r => r
      | .error _ => s
  | .remove name =>
      match s.1.remove_credential name s.2 with
      | .ok r => r
      | .error _ => s
  | .save => (s.1, s.1.save s.2)
  | .reopen auto2 fs =>
      match Vault.openVault s.1.password auto2 s.2 now fs with
      | .ok v2 => (v2, s.2)
      | .error _ => s

/-- Run a schedule of timed public operations from a starting state. -/
def runOps (s : Vault × Disk) (ops : List (Timestamp × VaultOp)) :
    Vault × Disk :=
  ops.foldl (fun acc p => p.2.step p.1 acc) s

/-- Every public operation preserves the joint name-key invariant. -/
theorem step_preserves_inv (now : Timestamp) (op : VaultOp) (s : Vault × Disk)
    (h : StateInv s) : StateInv (op.step now s) := by
  obtain ⟨hm, hd⟩ := h
  cases op with
  | add name value meta =>
      have hm2 : NameKeyInv
          (s.1.add_credential name value meta now s.2).1.credentials :=
        nameKeyInv_insert hm rfl
      refine ⟨hm2, ?_⟩
      show DiskNameKeyInv (s.1.add_credential name value meta now s.2).2
      by_cases hauto : s.1.auto_save
      · have he : (s.1.add_credential name value meta now s.2).2 =
            (s.1.add_credential name value meta now s.2).1.save_vault s.2 := by
          simp [Vault.add_credential, hauto]
        rw [he]
        exact diskInv_save_vault _ _ hm2
      · have he : (s.1.add_credential name value meta now s.2).2 = s.2 := by
          simp [Vault.add_credential, hauto]
        rw [he]
        exact hd
  | setMeta name meta =>
      show StateInv (match s.1.set_metadata name meta now s.2 with
        | .ok r => r
        | .error _ => s)
      cases hres : s.1.set_metadata name meta now s.2 with
      | error e => exact ⟨hm, hd⟩
      | ok r =>
          unfold Vault.set_metadata at hres
          cases hfind : dictGet s.1.credentials name with
          | none => rw [hfind] at hres; cases hres
          | some cred =>
              rw [hfind] at hres
              simp only [Except.ok.injEq] at hres
              have hname : cred.name = name := hm _ (dictGet_mem hfind)
              have hm2 : NameKeyInv (dictInsert s.1.credentials name
                  { cred with metadata := meta, updated_at := now }) :=
                nameKeyInv_insert hm hname
              rw [← hres]
              refine ⟨hm2, ?_⟩
              by_cases hauto : s.1.auto_save
              · simp only [hauto, if_true]
                exact diskInv_save_vault _ _ hm2
              · simp only [hauto, if_false]
                exact hd
  | remove name =>
      show StateInv (match s.1.remove_credential name s.2 with
        | .ok r => r
        | .error _ => s)
      cases hres : s.1.remove_credential name s.2 with
      | error e => exact ⟨hm, hd⟩
      | ok r =>
          unfold Vault.remove_credential at hres
          cases hfind : dictGet s.1.credentials name with
          | none => rw [hfind] at hres; cases hres
          | some cred =>
              rw [hfind] at hres
              simp only [Except.ok.injEq] at hres
              have hm2 : NameKeyInv (dictRemove s.1.credentials name) :=
                nameKeyInv_remove hm
              rw [← hres]
              refine ⟨hm2, ?_⟩
              by_cases hauto : s.1.auto_save
              · simp only [hauto, if_true]
                exact diskInv_save_vault _ _ hm2
              · simp only [hauto, if_false]
                exact hd
  | save =>
      exact ⟨hm, diskInv_save_config _ _ (diskInv_save_vault _ _ hm)⟩
  | reopen auto2 fs =>
      show StateInv (match Vault.openVault s.1.password auto2 s.2 now fs with
        | .ok v2 => (v2, s.2)
        | .error _ => s)
      cases hres : Vault.openVault s.1.password auto2 s.2 now fs with
      | error e => exact ⟨hm, hd⟩
      | ok v2 =>
          exact ⟨nameKeyInv_open s.1.password auto2 s.2 now fs v2 hd hres, hd⟩

/-- A schedule of public operations preserves the joint invariant. -/
theorem runOps_preserves_inv (s : Vault × Disk)
    (ops : List (Timestamp × VaultOp)) (h : StateInv s) :
    StateInv (runOps s ops) := by
  induction ops generalizing s with
  | nil => exact h
  | cons p rest ih => exact ih _ (step_preserves_inv p.1 p.2 s h)

/-- A freshly initialized vault satisfies the joint invariant. -/
theorem initVault_inv (pw : String) (salt : Salt) (auto2 : Bool) :
    StateInv (Vault.initVault pw salt auto2) := by
  constructor
  · intro p hp
    cases hp
  · intro tok htok p hp
    simp only [Vault.initVault, Vault.save_vault, Vault.save_config,
      Disk.empty, List.map_nil, Option.some.injEq] at htok
    rw [← htok] at hp
    cases hp

/-- C9: in every state reachable from a freshly initialized vault through
the public operations (add_credential, set_metadata, remove_credential,
save, reopen), every key of the in-memory credential map equals the `name`
field of the credential stored under it. -/
theorem name_key_invariant (pw : String) (salt : Salt) (auto2 : Bool)
    (ops : List (Timestamp × VaultOp)) :
    NameKeyInv (runOps (Vault.initVault pw salt auto2) ops).1.credentials :=
  (runOps_preserves_inv _ ops (initVault_inv pw salt auto2)).1

/-- Witness for C9 on a concrete schedule of operations. -/
theorem name_key_invariant_witness :
    NameKeyInv (runOps (Vault.initVault "pw" 0 true)
        [(1, .add "a" "v" []), (2, .setMeta "a" [("team", "ops")]),
         (3, .save), (4, .reopen true 5)]).1.credentials :=
  name_key_invariant "pw" 0 true
    [(1, .add "a" "v" []), (2, .setMeta "a" [("team", "ops")]),
     (3, .save), (4, .reopen true 5)]

/-- C10: each mutating operation targeting a single name leaves every entry
stored under a different key — hence, by the name-key invariant, every
credential with a different name — entirely unchanged: its value,
timestamps, last-accessed mark and metadata are those of before the
call. -/
theorem frame_property (v : Vault) (d : Disk) (n k value : String)
    (meta : List (String × String)) (now : Timestamp) (hk : k ≠ n) :
    dictGet (v.add_credential n value meta now d).1.credentials k
        = dictGet v.credentials k ∧
    (∀ v2 d2, v.set_metadata n meta now d = .ok (v2, d2) →
      dictGet v2.credentials k = dictGet v.credentials k) ∧
    (∀ v2 d2, v.remove_credential n d = .ok (v2, d2) →
      dictGet v2.credentials k = dictGet v.credentials k) := by
  refine ⟨?_, ?_, ?_⟩
  · exact dictGet_insert_ne _ _ _ _ hk
  · intro v2 d2 hok
    unfold Vault.set_metadata at hok
    cases hfind : dictGet v.credentials n with
    | none => rw [hfind] at hok; cases hok
    | some cred =>
        rw [hfind] at hok
        simp only [Except.ok.injEq, Prod.mk.injEq] at hok
        obtain ⟨hv2, _⟩ := hok
        rw [← hv2]
        exact dictGet_insert_ne _ _ _ _ hk
  · intro v2 d2 hok
    unfold Vault.remove_credential at hok
    cases hfind : dictGet v.credentials n with
    | none => rw [hfind] at hok; cases hok
    | some cred =>
        rw [hfind] at hok
        simp only [Except.ok.injEq, Prod.mk.injEq] at hok
        obtain ⟨hv2, _⟩ := hok
        rw [← hv2]
        exact dictGet_remove_ne _ _ _ hk

/-- Witness for C10: adding under "api-key" leaves the entry under "other"
untouched. -/
theorem frame_property_witness :
    dictGet (vaultA.add_credential "api-key" "y" [] 5 Disk.empty).1.credentials
        "other" = dictGet vaultA.credentials "other" :=
  (frame_property vaultA Disk.empty "api-key" "other" "y" [] 5
    (by decide)).1
